import Mathlib

/-!
Shallow embedding of the measurement engine of the ispeed repository
(pkg/ispeed/ispeed.go and pkg/ispeed/structs.go), together with proofs of
the claimed properties.

Modelling conventions:
- Go's time.Duration (an int64 of nanoseconds) is modelled as Int, in
  nanoseconds.  Byte counts (int64) are Int.  Overflow plays no role in any
  claim, so no wrap-around is modelled.
- Go float64 arithmetic (percentages, Mbps, the percentile index) is
  modelled by exact rational arithmetic over Rat.
- Go integer division (int64 division, Duration.Milliseconds) truncates
  toward zero, which is Int.tdiv.
- Network interactions are modelled by their observable outcomes: each ping
  probe is an Except value carrying either a transport error or the measured
  round-trip time, and each download/upload worker is described by the
  outcome of its single HTTP exchange (request-construction error, client.Do
  error, or the sequence of body reads / body-generation calls).
- The once-guarded shared error slot (setRunErr with sync.Once) keeps the
  first fatal error in the temporal order in which workers reach it; the
  worker list order of the model stands for that schedule order.
- errors.Is(err, io.EOF) / context.DeadlineExceeded / context.Canceled are
  modelled by equality with the corresponding NetErr constructor; the fresh
  errors.New values produced by the phase joins are a separate RunError
  constructor, distinct from every transport error by construction, exactly
  as a fresh Go error value is distinct from every error produced by the
  transport.
-/

/-- Errors originating from the network, the context, or the random source:
everything a worker can observe from its HTTP exchange. -/
inductive NetErr where
  | transport (msg : String)
  | deadlineExceeded
  | canceled
  | eof
deriving DecidableEq, Repr

/-- Errors a phase of the run can return: a propagated network error, or one
of the fresh errors.New values created by the phase joins. -/
inductive RunError where
  | net (e : NetErr)
  | noData (msg : String)
deriving DecidableEq, Repr

/-- ClientConfig from structs.go.  The base URL is kept as a list of
characters so that the trailing-slash trimming of strings.TrimRight is
directly computable.  The Progress callback field is modelled by whether a
sink is configured (Progress != nil). -/
structure ClientConfig where
  baseURL : List Char
  duration : Int
  streams : Int
  chunkSize : Int
  downloadMB : Int
  pingCount : Int
  timeout : Int
  json : Bool
  progress : Bool
deriving DecidableEq, Repr

/-- DefaultClientBase from structs.go. -/
def DefaultClientBase : List Char := "https://speed.getanswers.pro".toList

/-- DefaultDuration (12 seconds) in nanoseconds. -/
def DefaultDuration : Int := 12 * 1000000000

/-- DefaultStreams from structs.go. -/
def DefaultStreams : Int := 1

/-- DefaultChunkSize from structs.go. -/
def DefaultChunkSize : Int := 64 * 1024

/-- DefaultDownloadMB from structs.go. -/
def DefaultDownloadMB : Int := 40

/-- DefaultPingCount from structs.go. -/
def DefaultPingCount : Int := 6

/-- DefaultTimeout (30 seconds) in nanoseconds. -/
def DefaultTimeout : Int := 30 * 1000000000

/-- strings.TrimRight(s, "/"): remove every trailing slash. -/
def trimRightSlash (s : List Char) : List Char :=
  (s.reverse.dropWhile (fun c => c = '/')).reverse

/-- normalizeClientConfig from ispeed.go, lines 40-65. -/
def normalizeClientConfig (cfg : ClientConfig) : ClientConfig :=
  let base0 := if cfg.baseURL = [] then DefaultClientBase else cfg.baseURL
  { cfg with
    baseURL := trimRightSlash base0
    duration := if cfg.duration ≤ 0 then DefaultDuration else cfg.duration
    streams := if cfg.streams < 1 then DefaultStreams else cfg.streams
    chunkSize := if cfg.chunkSize < 1024 then DefaultChunkSize else cfg.chunkSize
    downloadMB := if cfg.downloadMB < 1 then DefaultDownloadMB else cfg.downloadMB
    pingCount := if cfg.pingCount < 1 then DefaultPingCount else cfg.pingCount
    timeout := if cfg.timeout ≤ 0 then DefaultTimeout else cfg.timeout }

/-- ProgressUpdate from structs.go; the float64 fields are modelled as
rationals. -/
structure ProgressUpdate where
  phase : String
  percent : Rat
  mbps : Rat
  pingMs : Rat
deriving DecidableEq, Repr

/-- reportProgress from ispeed.go, lines 67-84.  Returns the event delivered
to the sink, or none when no sink is configured. -/
def reportProgress (hasSink : Bool) (phase : String) (percent mbps pingMs : Rat) :
    Option ProgressUpdate :=
  if hasSink = false then none
  else
    let percent := if percent < 0 then 0 else percent
    let percent := if percent > 100 then 100 else percent
    let mbps := if mbps < 0 then 0 else mbps
    let pingMs := if pingMs < 0 then 0 else pingMs
    some ⟨phase, percent, mbps, pingMs⟩

/-- bytesToMbps from ispeed.go, lines 322-328.  duration.Seconds() is the
nanosecond count divided by 1e9. -/
def bytesToMbps (bytes : Int) (duration : Int) : Rat :=
  if duration ≤ 0 then 0
  else (bytes : Rat) * 8 / ((duration : Rat) / 1000000000) / 1000000

/-- avgDuration from ispeed.go, lines 292-301 (int64 division truncates
toward zero). -/
def avgDuration (items : List Int) : Int :=
  if items.length = 0 then 0
  else Int.tdiv items.sum (items.length : Int)

/-- percentileDuration from ispeed.go, lines 303-320.  math.Ceil over
float64 is modelled as the exact ceiling over Rat. -/
def percentileDuration (items : List Int) (percentile : Rat) : Int :=
  if items.length = 0 then 0
  else if percentile ≤ 0 then items.headI
  else if 1 ≤ percentile then items.getLastI
  else
    let index := ⌈(items.length : Rat) * percentile⌉ - 1
    let index := max index 0
    let index := if (items.length : Int) ≤ index then (items.length : Int) - 1 else index
    items.getD index.toNat 0

/-- Duration.Milliseconds(): nanoseconds divided by 1e6, truncating toward
zero. -/
def durationMilliseconds (d : Int) : Int := Int.tdiv d 1000000

/-- slices.Sort on durations: sort ascending (insertion of one element). -/
def insertSorted (x : Int) : List Int → List Int
  | [] => [x]
  | y :: ys => if x ≤ y then x :: y :: ys else y :: insertSorted x ys

/-- slices.Sort on durations: sort ascending. -/
def sortDurations (l : List Int) : List Int := l.foldr insertSorted []

/-- PingMetrics from structs.go. -/
structure PingMetrics where
  min : Int
  avg : Int
  p95 : Int
deriving DecidableEq, Repr

/-- The progress event emitted by iteration i of the ping loop (ispeed.go
line 100): percent is float64(i+1)/float64(PingCount)*100 and the latency
field is the sample's round-trip time in (truncated) milliseconds.  The two
time.Since(start) calls of lines 99-100 are separated only by a list append,
so they are modelled as returning the same measured duration. -/
def pingEvent (hasSink : Bool) (n : Int) (i : Nat) (rtt : Int) : Option ProgressUpdate :=
  reportProgress hasSink "ping" (((i : Rat) + 1) / (n : Rat) * 100) 0
    ((durationMilliseconds rtt : Int) : Rat)

/-- The ping sampling loop of ispeed.go lines 90-104, iterating over the
outcome of each client.Get probe; i is the loop index.  Returns the
collected round-trip times (or the first probe's error) together with the
progress events emitted along the way. -/
def runPingLoop (hasSink : Bool) (n : Int) (i : Nat) :
    List (Except NetErr Int) → Except RunError (List Int) × List ProgressUpdate
  | [] => (Except.ok [], [])
  | Except.error e :: _ => (Except.error (RunError.net e), [])
  | Except.ok rtt :: rest =>
    let ev := (pingEvent hasSink n i rtt).toList
    match runPingLoop hasSink n (i + 1) rest with
    | (Except.error e, evs) => (Except.error e, ev ++ evs)
    | (Except.ok rtts, evs) => (Except.ok (rtt :: rtts), ev ++ evs)

/-- runPing from ispeed.go, lines 86-117.  The probes list carries the
outcome of each of the PingCount client.Get calls, in order (the
correspondence with the Go loop requires the list to have PingCount
elements, imposed as a hypothesis where it matters). -/
def runPing (cfg : ClientConfig) (probes : List (Except NetErr Int)) :
    Except RunError PingMetrics × List ProgressUpdate :=
  match runPingLoop cfg.progress cfg.pingCount 0 probes with
  | (Except.error e, evs) => (Except.error e, evs)
  | (Except.ok results, evs) =>
    if results.length = 0 then (Except.error (RunError.noData "ping returned no data"), evs)
    else
      let sorted := sortDurations results
      (Except.ok ⟨sorted.headI, avgDuration sorted, percentileDuration sorted (95 / 100)⟩, evs)

/-- The outcome of one resp.Body.Read call observed by a download worker:
the byte count it returned and its error value (none, eof, or a transport
error). -/
structure ReadResult where
  n : Int
  err : Option NetErr
deriving DecidableEq, Repr

/-- The read loop of a download worker, ispeed.go lines 176-187: each
chunk's positive byte count is added to the worker's contribution, and the
first non-nil read error stops the loop; an error other than io.EOF is
recorded as fatal. -/
def runReads : List ReadResult → Int × Option NetErr
  | [] => (0, none)
  | r :: rs =>
    let add := if r.n > 0 then r.n else 0
    match r.err with
    | some e => (add, if e = NetErr.eof then none else some e)
    | none =>
      let rec' := runReads rs
      (add + rec'.fst, rec'.snd)

/-- The observable behaviour of one download worker's HTTP exchange:
http.NewRequestWithContext failed, client.Do failed, or a response body
arrived whose reads are listed in order. -/
inductive DlWorkerInput where
  | reqErr (e : NetErr)
  | doErr (e : NetErr)
  | body (reads : List ReadResult)
deriving DecidableEq, Repr

/-- One download worker, ispeed.go lines 161-189: its contribution to the
shared byte counter and the fatal error it hands to setRunErr, if any. -/
def dlWorker : DlWorkerInput → Int × Option NetErr
  | DlWorkerInput.reqErr e => (0, some e)
  | DlWorkerInput.doErr e => (0, some e)
  | DlWorkerInput.body reads => runReads reads

/-- setRunErr with sync.Once (ispeed.go lines 119-126): the first fatal
error in schedule order wins, later ones are discarded. -/
def firstErr : List (Option NetErr) → Option NetErr
  | [] => none
  | some e :: _ => some e
  | none :: rest => firstErr rest

/-- SpeedMetrics from structs.go. -/
structure SpeedMetrics where
  mbps : Rat
  bytes : Int
  duration : Int
deriving DecidableEq, Repr

/-- runDownload from ispeed.go, lines 128-212, after abstracting each
worker's network exchange: sum the workers' contributions to the shared
atomic counter, keep the first fatal error, and join as in lines 202-211
(fatal error first, then the zero-byte NoData guard, then the metrics). -/
def runDownload (workers : List DlWorkerInput) (elapsed : Int) :
    Except RunError SpeedMetrics :=
  let outs := workers.map dlWorker
  let totalBytes := (outs.map Prod.fst).sum
  match firstErr (outs.map Prod.snd) with
  | some e => Except.error (RunError.net e)
  | none =>
    if totalBytes = 0 then Except.error (RunError.noData "download returned no data")
    else Except.ok ⟨bytesToMbps totalBytes elapsed, totalBytes, elapsed⟩

/-- One Read call served by the timedReader (ispeed.go lines 365-384): the
length of the buffer the transport offers, the context error at the time of
the call (some once the per-worker deadline fired), and whether rand.Read
failed. -/
structure ReadCall where
  lp : Nat
  ctxErr : Option NetErr
  randErr : Option NetErr
deriving DecidableEq, Repr

/-- timedReader.Read, ispeed.go lines 365-384: the byte count generated by
one call (0 on a context or rand error, otherwise the buffer length capped
at chunkSize) and the error returned. -/
def timedReaderRead (chunkSize : Int) (c : ReadCall) : Int × Option NetErr :=
  match c.ctxErr with
  | some e => (0, some e)
  | none =>
    match c.randErr with
    | some e => (0, some e)
    | none => (if (c.lp : Int) > chunkSize then chunkSize else (c.lp : Int), none)

/-- Total number of bytes a timedReader generates over a sequence of Read
calls.  Every one of these bytes is atomically added to the phase's shared
counter at the moment it is generated (lines 379-382), so this is exactly
the worker's contribution to the shared total. -/
def timedReaderGen (chunkSize : Int) (calls : List ReadCall) : Int :=
  (calls.map (fun c => (timedReaderRead chunkSize c).fst)).sum

/-- The observable behaviour of one upload worker's HTTP exchange:
http.NewRequestWithContext failed, client.Do returned an error after the
listed reader calls, or the POST completed after the listed reader calls. -/
inductive UlWorkerInput where
  | reqErr (e : NetErr)
  | doErr (calls : List ReadCall) (e : NetErr)
  | done (calls : List ReadCall)
deriving DecidableEq, Repr

/-- errors.Is(err, context.DeadlineExceeded) || errors.Is(err, context.Canceled)
from ispeed.go line 259. -/
def isCancelErr : NetErr → Bool
  | NetErr.deadlineExceeded => true
  | NetErr.canceled => true
  | _ => false

/-- One upload worker, ispeed.go lines 246-267: its contribution to the
shared byte counter (added by its timedReader during the exchange) and the
fatal error it hands to setRunErr, if any.  A deadline-exceeded or canceled
client.Do error is swallowed (line 259-261). -/
def ulWorker (chunkSize : Int) : UlWorkerInput → Int × Option NetErr
  | UlWorkerInput.reqErr e => (0, some e)
  | UlWorkerInput.doErr calls e =>
    (timedReaderGen chunkSize calls, if isCancelErr e then none else some e)
  | UlWorkerInput.done calls => (timedReaderGen chunkSize calls, none)

/-- runUpload from ispeed.go, lines 214-290, after abstracting each worker's
network exchange: sum the workers' contributions, keep the first fatal
error, and join as in lines 280-289. -/
def runUpload (chunkSize : Int) (workers : List UlWorkerInput) (elapsed : Int) :
    Except RunError SpeedMetrics :=
  let outs := workers.map (ulWorker chunkSize)
  let totalBytes := (outs.map Prod.fst).sum
  match firstErr (outs.map Prod.snd) with
  | some e => Except.error (RunError.net e)
  | none =>
    if totalBytes = 0 then Except.error (RunError.noData "upload sent no data")
    else Except.ok ⟨bytesToMbps totalBytes elapsed, totalBytes, elapsed⟩

/-- Result from structs.go. -/
structure Result where
  ping : PingMetrics
  download : SpeedMetrics
  upload : SpeedMetrics
deriving DecidableEq, Repr

/-- The Go zero value Result{} returned on failure. -/
def Result.zero : Result := ⟨⟨0, 0, 0⟩, ⟨0, 0, 0⟩, ⟨0, 0, 0⟩⟩

/-- The observable network behaviour of one whole run: the outcome of every
ping probe and of every download/upload worker exchange, plus the elapsed
wall time measured by each throughput phase. -/
structure NetBehavior where
  pingProbes : List (Except NetErr Int)
  dlWorkers : List DlWorkerInput
  dlElapsed : Int
  ulWorkers : List UlWorkerInput
  ulElapsed : Int

/-- RunClient from ispeed.go, lines 18-38: normalize the config, then run
ping, download, upload strictly in sequence, returning (Result{}, err) on
the first phase error.  The third component instruments the control flow:
the list of phases whose runner was invoked, in invocation order. -/
def RunClient (cfg : ClientConfig) (net : NetBehavior) :
    (Result × Option RunError) × List String :=
  match (runPing (normalizeClientConfig cfg) net.pingProbes).fst with
  | Except.error e => ((Result.zero, some e), ["ping"])
  | Except.ok pingRes =>
    match runDownload net.dlWorkers net.dlElapsed with
    | Except.error e => ((Result.zero, some e), ["ping", "download"])
    | Except.ok downloadRes =>
      match runUpload (normalizeClientConfig cfg).chunkSize net.ulWorkers net.ulElapsed with
      | Except.error e => ((Result.zero, some e), ["ping", "download", "upload"])
      | Except.ok uploadRes =>
        ((⟨pingRes, downloadRes, uploadRes⟩, none), ["ping", "download", "upload"])

/-- atomic.AddInt64 on the shared byte counter (ispeed.go lines 179 and
379-382): one indivisible read-add-write step. -/
def atomicAddInt64 (counter : Int) (amount : Int) : Int := counter + amount

/-- An interleaved execution of the workers' counter increments: the
schedule lists, in execution order, the id of the worker whose single
atomic add of the fixed amount runs next; the counter starts at zero. -/
def execSchedule (amount : Int) (schedule : List Nat) : Int :=
  schedule.foldl (fun counter _ => atomicAddInt64 counter amount) 0

/-- Round-trip times of the successful leading probes: the ping loop aborts
at the first failed probe, so exactly these probes emit an event. -/
def okLeadingVals : List (Except NetErr Int) → List Int
  | [] => []
  | Except.ok rtt :: rest => rtt :: okLeadingVals rest
  | Except.error _ :: _ => []

/-- Spec-side description of the ping progress events (section 4.2 of the
spec): the probe with loop index i out of n emits one event with phase
ping, percent (i+1)/n*100, Mbps 0 and the sample's own round-trip time in
milliseconds. -/
def pingEventsSpec (n : Int) (i : Nat) : List Int → List ProgressUpdate
  | [] => []
  | rtt :: rest =>
    ⟨"ping", ((i : Rat) + 1) / (n : Rat) * 100, 0, ((durationMilliseconds rtt : Int) : Rat)⟩
      :: pingEventsSpec n (i + 1) rest

lemma dropWhile_head?_not (p : Char → Bool) (l : List Char) (a : Char)
    (h : (l.dropWhile p).head? = some a) : p a = false := by
  induction l with
  | nil => simp [List.dropWhile] at h
  | cons x xs ih =>
    rw [List.dropWhile_cons] at h
    by_cases hx : p x
    · rw [if_pos hx] at h
      exact ih h
    · rw [if_neg hx] at h
      simp only [List.head?_cons, Option.some.injEq] at h
      subst h
      simpa using hx

lemma trimRightSlash_no_slash (s : List Char) :
    (trimRightSlash s).getLast? ≠ some '/' := by
  intro h
  rw [trimRightSlash, List.getLast?_reverse] at h
  have := dropWhile_head?_not _ _ _ h
  simp at this

lemma normalizeClientConfig_fields (cfg : ClientConfig) :
    (normalizeClientConfig cfg).baseURL
        = trimRightSlash (if cfg.baseURL = [] then DefaultClientBase else cfg.baseURL)
    ∧ (normalizeClientConfig cfg).duration
        = (if cfg.duration ≤ 0 then DefaultDuration else cfg.duration)
    ∧ (normalizeClientConfig cfg).streams
        = (if cfg.streams < 1 then DefaultStreams else cfg.streams)
    ∧ (normalizeClientConfig cfg).chunkSize
        = (if cfg.chunkSize < 1024 then DefaultChunkSize else cfg.chunkSize)
    ∧ (normalizeClientConfig cfg).downloadMB
        = (if cfg.downloadMB < 1 then DefaultDownloadMB else cfg.downloadMB)
    ∧ (normalizeClientConfig cfg).pingCount
        = (if cfg.pingCount < 1 then DefaultPingCount else cfg.pingCount)
    ∧ (normalizeClientConfig cfg).timeout
        = (if cfg.timeout ≤ 0 then DefaultTimeout else cfg.timeout) := by
  simp [normalizeClientConfig]

lemma normalizeClientConfig_chunkSize_big (cfg : ClientConfig) :
    1024 ≤ (normalizeClientConfig cfg).chunkSize := by
  rw [(normalizeClientConfig_fields cfg).2.2.2.1]
  split_ifs with h
  · decide
  · omega

/-- C4: percentileDuration on a non-empty sorted sequence returns the first
element for percentile at most 0, the last element for percentile at least
1, and otherwise the element at index ceil(length * percentile) - 1 clamped
into the valid index range. -/
theorem percentileDuration_spec (items : List Int) (p : Rat)
    (hne : items ≠ []) (hsorted : List.Sorted (fun a b => a ≤ b) items) :
    (p ≤ 0 → percentileDuration items p = items.headI)
  ∧ (1 ≤ p → percentileDuration items p = items.getLastI)
  ∧ (0 < p → p < 1 →
      percentileDuration items p =
        items.getD
          (min (max (⌈(items.length : Rat) * p⌉ - 1) 0) ((items.length : Int) - 1)).toNat 0) := by
  have hlen : ¬ items.length = 0 := by simpa using hne
  refine ⟨?_, ?_, ?_⟩
  · intro hp
    simp [percentileDuration, hlen, hp]
  · intro hp
    have hnp : ¬ p ≤ 0 := by
      intro hc
      linarith
    simp [percentileDuration, hlen, hnp, hp]
  · intro hp0 hp1
    have h1 : ¬ p ≤ 0 := not_le.mpr hp0
    have h2 : ¬ 1 ≤ p := not_le.mpr hp1
    simp only [percentileDuration, hlen, if_false, h1, h2, if_neg, ite_false]
    have hL : 1 ≤ (items.length : Int) := by
      omega
    congr 1
    generalize ⌈(items.length : Rat) * p⌉ = c
    split_ifs with h3
    · omega
    · omega

/-- C5: normalizeClientConfig is total and never fails; an empty base URL is
replaced by the default endpoint, trailing slashes are trimmed, every
out-of-range numeric field is replaced by its default and every in-range
field is kept, and consequently every numeric field of the output is
positive and the base URL has no trailing slash. -/
theorem normalizeClientConfig_spec (cfg : ClientConfig) :
    (cfg.baseURL = [] → (normalizeClientConfig cfg).baseURL = trimRightSlash DefaultClientBase)
  ∧ (cfg.baseURL ≠ [] → (normalizeClientConfig cfg).baseURL = trimRightSlash cfg.baseURL)
  ∧ (cfg.duration ≤ 0 → (normalizeClientConfig cfg).duration = DefaultDuration)
  ∧ (0 < cfg.duration → (normalizeClientConfig cfg).duration = cfg.duration)
  ∧ (cfg.streams < 1 → (normalizeClientConfig cfg).streams = DefaultStreams)
  ∧ (1 ≤ cfg.streams → (normalizeClientConfig cfg).streams = cfg.streams)
  ∧ (cfg.chunkSize < 1024 → (normalizeClientConfig cfg).chunkSize = DefaultChunkSize)
  ∧ (1024 ≤ cfg.chunkSize → (normalizeClientConfig cfg).chunkSize = cfg.chunkSize)
  ∧ (cfg.downloadMB < 1 → (normalizeClientConfig cfg).downloadMB = DefaultDownloadMB)
  ∧ (1 ≤ cfg.downloadMB → (normalizeClientConfig cfg).downloadMB = cfg.downloadMB)
  ∧ (cfg.pingCount < 1 → (normalizeClientConfig cfg).pingCount = DefaultPingCount)
  ∧ (1 ≤ cfg.pingCount → (normalizeClientConfig cfg).pingCount = cfg.pingCount)
  ∧ (cfg.timeout ≤ 0 → (normalizeClientConfig cfg).timeout = DefaultTimeout)
  ∧ (0 < cfg.timeout → (normalizeClientConfig cfg).timeout = cfg.timeout)
  ∧ 0 < (normalizeClientConfig cfg).duration
  ∧ 0 < (normalizeClientConfig cfg).streams
  ∧ 0 < (normalizeClientConfig cfg).chunkSize
  ∧ 0 < (normalizeClientConfig cfg).downloadMB
  ∧ 0 < (normalizeClientConfig cfg).pingCount
  ∧ 0 < (normalizeClientConfig cfg).timeout
  ∧ (normalizeClientConfig cfg).baseURL.getLast? ≠ some '/' := by
  obtain ⟨hb, hd, hs, hc, hm, hp, ht⟩ := normalizeClientConfig_fields cfg
  refine ⟨?_, ?_, ?_, ?_, ?_, ?_, ?_, ?_, ?_, ?_, ?_, ?_, ?_, ?_, ?_, ?_, ?_, ?_, ?_, ?_, ?_⟩
  · intro h
    rw [hb, if_pos h]
  · intro h
    rw [hb, if_neg h]
  · intro h
    rw [hd, if_pos h]
  · intro h
    rw [hd, if_neg (by omega)]
  · intro h
    rw [hs, if_pos h]
  · intro h
    rw [hs, if_neg (by omega)]
  · intro h
    rw [hc, if_pos h]
  · intro h
    rw [hc, if_neg (by omega)]
  · intro h
    rw [hm, if_pos h]
  · intro h
    rw [hm, if_neg (by omega)]
  · intro h
    rw [hp, if_pos h]
  · intro h
    rw [hp, if_neg (by omega)]
  · intro h
    rw [ht, if_pos h]
  · intro h
    rw [ht, if_neg (by omega)]
  · rw [hd]
    split_ifs with h
    · decide
    · omega
  · rw [hs]
    split_ifs with h
    · decide
    · omega
  · rw [hc]
    split_ifs with h
    · decide
    · omega
  · rw [hm]
    split_ifs with h
    · decide
    · omega
  · rw [hp]
    split_ifs with h
    · decide
    · omega
  · rw [ht]
    split_ifs with h
    · decide
    · omega
  · rw [hb]
    exact trimRightSlash_no_slash _

/-- C6: every progress event delivered to the configured sink has its
percent within 0 to 100 and its Mbps and ping-milliseconds fields
nonnegative, for every raw input. -/
theorem reportProgress_clamped (hasSink : Bool) (phase : String)
    (percent mbps pingMs : Rat) (u : ProgressUpdate)
    (h : reportProgress hasSink phase percent mbps pingMs = some u) :
    0 ≤ u.percent ∧ u.percent ≤ 100 ∧ 0 ≤ u.mbps ∧ 0 ≤ u.pingMs := by
  cases hasSink with
  | false => simp [reportProgress] at h
  | true =>
    simp only [reportProgress] at h
    rw [if_neg (by decide)] at h
    have hu := Option.some.inj h
    subst hu
    refine ⟨?_, ?_, ?_, ?_⟩ <;> simp only [] <;> split_ifs <;> linarith

/-- C7: bytesToMbps returns 0 on a nonpositive duration, otherwise bytes
times 8 over the duration in seconds over one million; 2000000 bytes over
one second is 16 Mbps. -/
theorem bytesToMbps_spec (bytes duration : Int) :
    (duration ≤ 0 → bytesToMbps bytes duration = 0)
  ∧ (0 < duration →
      bytesToMbps bytes duration
        = (bytes : Rat) * 8 / ((duration : Rat) / 1000000000) / 1000000)
  ∧ bytesToMbps 2000000 1000000000 = 16 := by
  refine ⟨?_, ?_, ?_⟩
  · intro h
    simp [bytesToMbps, h]
  · intro h
    rw [bytesToMbps, if_neg (by omega)]
  · norm_num [bytesToMbps]

lemma foldl_atomicAdd (amount : Int) (l : List Nat) (c : Int) :
    l.foldl (fun counter _ => atomicAddInt64 counter amount) c
      = c + (l.length : Int) * amount := by
  induction l generalizing c with
  | nil => simp
  | cons x xs ih =>
    rw [List.foldl_cons, ih]
    simp only [atomicAddInt64, List.length_cons]
    push_cast
    ring

/-- C9: any interleaving of the workers' atomic increments of the shared
byte counter, each worker adding the fixed amount exactly once, leaves the
counter at exactly N times the amount: atomic adds lose no update. -/
theorem sharedCounter_atomic_sum (N : Nat) (amount : Int) (schedule : List Nat)
    (hnodup : schedule.Nodup) (hmem : ∀ w ∈ schedule, w < N)
    (hlen : schedule.length = N) :
    execSchedule amount schedule = (N : Int) * amount := by
  rw [execSchedule, foldl_atomicAdd, hlen]
  ring

lemma firstErr_eq_none (l : List (Option NetErr)) (h : ∀ x ∈ l, x = none) :
    firstErr l = none := by
  induction l with
  | nil => rfl
  | cons x xs ih =>
    have hx := h x (List.mem_cons_self x xs)
    subst hx
    simp only [firstErr]
    exact ih (fun y hy => h y (List.mem_cons_of_mem _ hy))

/-- C3: after the download workers join, a captured fatal error takes
priority and is propagated with the partial byte counter discarded (the
error return carries no metrics); NoData arises exactly when no fatal error
was captured and the byte total is zero; and when every worker's first read
fails with a non-EOF transport error the phase fails with that transport
error, never with NoData. -/
theorem runDownload_error_priority (workers : List DlWorkerInput) (elapsed : Int) :
    (∀ e, firstErr ((workers.map dlWorker).map Prod.snd) = some e →
        runDownload workers elapsed = Except.error (RunError.net e))
  ∧ (runDownload workers elapsed = Except.error (RunError.noData "download returned no data")
      ↔ firstErr ((workers.map dlWorker).map Prod.snd) = none
        ∧ ((workers.map dlWorker).map Prod.fst).sum = 0)
  ∧ (workers ≠ [] →
      (∀ w ∈ workers, ∃ e, e ≠ NetErr.eof ∧ w = DlWorkerInput.body [⟨0, some e⟩]) →
      ∃ e, runDownload workers elapsed = Except.error (RunError.net e)
        ∧ ∀ msg, runDownload workers elapsed ≠ Except.error (RunError.noData msg)) := by
  refine ⟨?_, ?_, ?_⟩
  · intro e h
    simp only [runDownload, h]
  · cases hfe : firstErr ((workers.map dlWorker).map Prod.snd) with
    | some e =>
      simp only [runDownload, hfe]
      simp
    | none =>
      by_cases ht : ((workers.map dlWorker).map Prod.fst).sum = 0
      · simp only [runDownload, hfe]
        simp [ht]
      · simp only [runDownload, hfe]
        simp [ht]
  · intro hne hall
    cases workers with
    | nil => exact absurd rfl hne
    | cons w ws =>
      obtain ⟨e, he, hw⟩ := hall w (List.mem_cons_self w ws)
      subst hw
      have hfe : firstErr
          (((DlWorkerInput.body [⟨0, some e⟩] :: ws).map dlWorker).map Prod.snd)
          = some e := by
        simp only [List.map_cons, dlWorker, runReads]
        rw [if_neg he]
        rfl
      refine ⟨e, ?_, ?_⟩
      · simp only [runDownload, hfe]
      · intro msg
        simp only [runDownload, hfe]
        simp

/-- C2: an upload worker whose client.Do call fails with a
deadline-exceeded or canceled error records no fatal error and still
contributes every byte its timedReader generated to the shared total; after
the workers join, the phase succeeds with Mbps computed from the total
bytes over the elapsed time whenever no fatal error was recorded and at
least one byte was generated, and fails with the NoData error exactly when
no fatal error was recorded and the total is zero. -/
theorem runUpload_cancellation_counts (chunkSize elapsed : Int)
    (workers : List UlWorkerInput) :
    (∀ calls e, isCancelErr e = true →
        ulWorker chunkSize (UlWorkerInput.doErr calls e)
          = (timedReaderGen chunkSize calls, none))
  ∧ ((∀ w ∈ workers, (ulWorker chunkSize w).snd = none) →
      0 < ((workers.map (ulWorker chunkSize)).map Prod.fst).sum →
      runUpload chunkSize workers elapsed
        = Except.ok
            ⟨bytesToMbps (((workers.map (ulWorker chunkSize)).map Prod.fst).sum) elapsed,
             ((workers.map (ulWorker chunkSize)).map Prod.fst).sum, elapsed⟩)
  ∧ (runUpload chunkSize workers elapsed = Except.error (RunError.noData "upload sent no data")
      ↔ firstErr ((workers.map (ulWorker chunkSize)).map Prod.snd) = none
        ∧ ((workers.map (ulWorker chunkSize)).map Prod.fst).sum = 0) := by
  refine ⟨?_, ?_, ?_⟩
  · intro calls e h
    simp [ulWorker, h]
  · intro hall hpos
    have hfe : firstErr ((workers.map (ulWorker chunkSize)).map Prod.snd) = none := by
      apply firstErr_eq_none
      intro x hx
      rw [List.mem_map] at hx
      obtain ⟨y, hy, rfl⟩ := hx
      rw [List.mem_map] at hy
      obtain ⟨w, hw, rfl⟩ := hy
      exact hall w hw
    simp only [runUpload, hfe]
    rw [if_neg (by omega)]
  · cases hfe : firstErr ((workers.map (ulWorker chunkSize)).map Prod.snd) with
    | some e =>
      simp only [runUpload, hfe]
      simp
    | none =>
      by_cases ht : ((workers.map (ulWorker chunkSize)).map Prod.fst).sum = 0
      · simp only [runUpload, hfe]
        simp [ht]
      · simp only [runUpload, hfe]
        simp [ht]

/-- C1: RunClient runs the phases strictly in the order ping, download,
upload; on the first phase error it stops, skips the remaining phases and
returns exactly that error together with the zero-valued Result; on success
it returns the three phase results with no error. -/
theorem runClient_phase_order (cfg : ClientConfig) (net : NetBehavior) :
    (∀ e, (runPing (normalizeClientConfig cfg) net.pingProbes).fst = Except.error e →
        RunClient cfg net = ((Result.zero, some e), ["ping"]))
  ∧ (∀ p e, (runPing (normalizeClientConfig cfg) net.pingProbes).fst = Except.ok p →
      runDownload net.dlWorkers net.dlElapsed = Except.error e →
        RunClient cfg net = ((Result.zero, some e), ["ping", "download"]))
  ∧ (∀ p d e, (runPing (normalizeClientConfig cfg) net.pingProbes).fst = Except.ok p →
      runDownload net.dlWorkers net.dlElapsed = Except.ok d →
      runUpload (normalizeClientConfig cfg).chunkSize net.ulWorkers net.ulElapsed
          = Except.error e →
        RunClient cfg net = ((Result.zero, some e), ["ping", "download", "upload"]))
  ∧ (∀ p d u, (runPing (normalizeClientConfig cfg) net.pingProbes).fst = Except.ok p →
      runDownload net.dlWorkers net.dlElapsed = Except.ok d →
      runUpload (normalizeClientConfig cfg).chunkSize net.ulWorkers net.ulElapsed
          = Except.ok u →
        RunClient cfg net = ((⟨p, d, u⟩, none), ["ping", "download", "upload"])) := by
  refine ⟨?_, ?_, ?_, ?_⟩
  · intro e h
    simp only [RunClient, h]
  · intro p e hp hd
    simp only [RunClient, hp, hd]
  · intro p d e hp hd hu
    simp only [RunClient, hp, hd, hu]
  · intro p d u hp hd hu
    simp only [RunClient, hp, hd, hu]

lemma runReads_fst_nonneg (rs : List ReadResult) : 0 ≤ (runReads rs).fst := by
  induction rs with
  | nil => simp [runReads]
  | cons r rs ih =>
    obtain ⟨n, err⟩ := r
    cases err with
    | none =>
      simp only [runReads]
      split_ifs <;> omega
    | some e =>
      simp only [runReads]
      split_ifs <;> omega

lemma dlWorker_fst_nonneg (w : DlWorkerInput) : 0 ≤ (dlWorker w).fst := by
  cases w with
  | reqErr e => simp [dlWorker]
  | doErr e => simp [dlWorker]
  | body reads => exact runReads_fst_nonneg reads

lemma dl_total_nonneg (workers : List DlWorkerInput) :
    0 ≤ ((workers.map dlWorker).map Prod.fst).sum := by
  apply List.sum_nonneg
  intro x hx
  rw [List.mem_map] at hx
  obtain ⟨y, hy, rfl⟩ := hx
  rw [List.mem_map] at hy
  obtain ⟨w, hw, rfl⟩ := hy
  exact dlWorker_fst_nonneg w

lemma timedReaderRead_fst_nonneg (chunkSize : Int) (h : 0 ≤ chunkSize) (c : ReadCall) :
    0 ≤ (timedReaderRead chunkSize c).fst := by
  obtain ⟨lp, ce, re⟩ := c
  cases ce with
  | some e => simp [timedReaderRead]
  | none =>
    cases re with
    | some e => simp [timedReaderRead]
    | none =>
      simp only [timedReaderRead]
      split_ifs with hlt
      · exact h
      · positivity

lemma timedReaderGen_nonneg (chunkSize : Int) (h : 0 ≤ chunkSize) (calls : List ReadCall) :
    0 ≤ timedReaderGen chunkSize calls := by
  rw [timedReaderGen]
  apply List.sum_nonneg
  intro x hx
  rw [List.mem_map] at hx
  obtain ⟨c, hc, rfl⟩ := hx
  exact timedReaderRead_fst_nonneg chunkSize h c

lemma ulWorker_fst_nonneg (chunkSize : Int) (h : 0 ≤ chunkSize) (w : UlWorkerInput) :
    0 ≤ (ulWorker chunkSize w).fst := by
  cases w with
  | reqErr e => simp [ulWorker]
  | doErr calls e =>
    simp only [ulWorker]
    exact timedReaderGen_nonneg chunkSize h calls
  | done calls => exact timedReaderGen_nonneg chunkSize h calls

lemma ul_total_nonneg (chunkSize : Int) (h : 0 ≤ chunkSize) (workers : List UlWorkerInput) :
    0 ≤ ((workers.map (ulWorker chunkSize)).map Prod.fst).sum := by
  apply List.sum_nonneg
  intro x hx
  rw [List.mem_map] at hx
  obtain ⟨y, hy, rfl⟩ := hx
  rw [List.mem_map] at hy
  obtain ⟨w, hw, rfl⟩ := hy
  exact ulWorker_fst_nonneg chunkSize h w

lemma runDownload_ok_bytes {workers : List DlWorkerInput} {elapsed : Int}
    {m : SpeedMetrics} (h : runDownload workers elapsed = Except.ok m) :
    0 < m.bytes := by
  cases hfe : firstErr ((workers.map dlWorker).map Prod.snd) with
  | some e =>
    simp only [runDownload, hfe] at h
    exact Except.noConfusion h
  | none =>
    simp only [runDownload, hfe] at h
    by_cases ht : ((workers.map dlWorker).map Prod.fst).sum = 0
    · rw [if_pos ht] at h
      cases h
    · rw [if_neg ht] at h
      have hm := Except.ok.inj h
      have hnn := dl_total_nonneg workers
      rw [← hm]
      simp only []
      omega

lemma runUpload_ok_bytes {chunkSize : Int} (hcs : 0 ≤ chunkSize)
    {workers : List UlWorkerInput} {elapsed : Int} {m : SpeedMetrics}
    (h : runUpload chunkSize workers elapsed = Except.ok m) :
    0 < m.bytes := by
  cases hfe : firstErr ((workers.map (ulWorker chunkSize)).map Prod.snd) with
  | some e =>
    simp only [runUpload, hfe] at h
    exact Except.noConfusion h
  | none =>
    simp only [runUpload, hfe] at h
    by_cases ht : ((workers.map (ulWorker chunkSize)).map Prod.fst).sum = 0
    · rw [if_pos ht] at h
      cases h
    · rw [if_neg ht] at h
      have hm := Except.ok.inj h
      have hnn := ul_total_nonneg chunkSize hcs workers
      rw [← hm]
      simp only []
      omega

/-- C10: whenever RunClient returns with no error, the returned Result has
strictly positive download and upload byte totals: the NoData guards make a
successful run with a zero byte total in either throughput phase
impossible. -/
theorem runClient_success_positive_bytes (cfg : ClientConfig) (net : NetBehavior)
    (h : (RunClient cfg net).fst.snd = none) :
    0 < (RunClient cfg net).fst.fst.download.bytes
  ∧ 0 < (RunClient cfg net).fst.fst.upload.bytes := by
  have hcs : (0 : Int) ≤ (normalizeClientConfig cfg).chunkSize := by
    have := normalizeClientConfig_chunkSize_big cfg
    omega
  cases hp : (runPing (normalizeClientConfig cfg) net.pingProbes).fst with
  | error e => simp [RunClient, hp] at h
  | ok p =>
    cases hd : runDownload net.dlWorkers net.dlElapsed with
    | error e => simp [RunClient, hp, hd] at h
    | ok d =>
      cases hu : runUpload (normalizeClientConfig cfg).chunkSize net.ulWorkers
          net.ulElapsed with
      | error e => simp [RunClient, hp, hd, hu] at h
      | ok u =>
        have hrun : RunClient cfg net
            = ((⟨p, d, u⟩, none), ["ping", "download", "upload"]) := by
          simp only [RunClient, hp, hd, hu]
        rw [hrun]
        exact ⟨runDownload_ok_bytes hd, runUpload_ok_bytes hcs hu⟩

lemma pingEvent_true (n : Int) (i : Nat) (rtt : Int)
    (hn : (i : Int) < n) (hr : 0 ≤ rtt) :
    pingEvent true n i rtt
      = some ⟨"ping", ((i : Rat) + 1) / (n : Rat) * 100, 0,
          ((durationMilliseconds rtt : Int) : Rat)⟩ := by
  have hnpos : (0 : Rat) < (n : Rat) := by
    have h0 : (0 : Int) < n := by omega
    exact_mod_cast h0
  have hper0 : 0 ≤ ((i : Rat) + 1) / (n : Rat) * 100 := by positivity
  have hper100 : ((i : Rat) + 1) / (n : Rat) * 100 ≤ 100 := by
    have h1 : ((i : Rat) + 1) / (n : Rat) ≤ 1 := by
      rw [div_le_one hnpos]
      have h2 : (i : Int) + 1 ≤ n := hn
      exact_mod_cast h2
    nlinarith
  have hms : (0 : Rat) ≤ ((durationMilliseconds rtt : Int) : Rat) := by
    have h3 : (0 : Int) ≤ durationMilliseconds rtt := Int.tdiv_nonneg hr (by decide)
    exact_mod_cast h3
  simp only [pingEvent, reportProgress]
  rw [if_neg (by decide)]
  simp only [if_neg (not_lt.mpr hper0), if_neg (not_lt.mpr hper100),
    if_neg (lt_irrefl (0 : Rat)), if_neg (not_lt.mpr hms)]

lemma runPingLoop_events (n : Int) (probes : List (Except NetErr Int)) (i : Nat)
    (hbound : (i : Int) + probes.length ≤ n)
    (hpos : ∀ d : Int, Except.ok d ∈ probes → 0 ≤ d) :
    (runPingLoop true n i probes).snd = pingEventsSpec n i (okLeadingVals probes) := by
  induction probes generalizing i with
  | nil => simp [runPingLoop, okLeadingVals, pingEventsSpec]
  | cons p rest ih =>
    cases p with
    | error e => simp [runPingLoop, okLeadingVals, pingEventsSpec]
    | ok rtt =>
      have hr : 0 ≤ rtt := hpos rtt (List.mem_cons_self _ _)
      have hin : (i : Int) < n := by
        simp only [List.length_cons] at hbound
        push_cast at hbound
        omega
      have hbound2 : ((i + 1 : Nat) : Int) + rest.length ≤ n := by
        simp only [List.length_cons] at hbound
        push_cast at hbound ⊢
        omega
      have ihh := ih (i + 1) hbound2
        (fun d hd => hpos d (List.mem_cons_of_mem _ hd))
      rcases hrec : runPingLoop true n (i + 1) rest with ⟨res, evs⟩
      rw [hrec] at ihh
      simp only at ihh
      cases res with
      | error e =>
        simp only [runPingLoop, hrec, okLeadingVals, pingEventsSpec,
          pingEvent_true n i rtt hin hr, Option.toList_some]
        rw [← ihh]
        rfl
      | ok rtts =>
        simp only [runPingLoop, hrec, okLeadingVals, pingEventsSpec,
          pingEvent_true n i rtt hin hr, Option.toList_some]
        rw [← ihh]
        rfl

/-- C8: with a configured sink, each of the successful leading probes of
the ping phase emits exactly one progress event, the i-th carrying phase
ping, percent (i+1)/PingCount*100, Mbps 0 and the probe's own round-trip
time in milliseconds. -/
theorem runPing_progress_events (cfg : ClientConfig)
    (probes : List (Except NetErr Int))
    (hsink : cfg.progress = true)
    (hlen : (probes.length : Int) = cfg.pingCount)
    (hpos : ∀ d : Int, Except.ok d ∈ probes → 0 ≤ d) :
    (runPing cfg probes).snd = pingEventsSpec cfg.pingCount 0 (okLeadingVals probes) := by
  have haux := runPingLoop_events cfg.pingCount probes 0 (by omega) hpos
  rcases hlp : runPingLoop true cfg.pingCount 0 probes with ⟨res, evs⟩
  rw [hlp] at haux
  simp only at haux
  cases res with
  | error e =>
    simp only [runPing, hsink, hlp]
    exact haux
  | ok results =>
    by_cases hres : results.length = 0
    · simp only [runPing, hsink, hlp, hres, if_pos]
      exact haux
    · simp only [runPing, hsink, hlp]
      rw [if_neg hres]
      exact haux

/-- Witness for the C1 theorem: a run whose first ping probe fails returns
the zero Result with exactly that error and only the ping phase attempted. -/
theorem runClient_phase_order_witness :
    RunClient ⟨[], 0, 0, 0, 0, 0, 0, false, false⟩
        ⟨[Except.error (NetErr.transport "boom")], [], 0, [], 0⟩
      = ((Result.zero, some (RunError.net (NetErr.transport "boom"))), ["ping"]) :=
  (runClient_phase_order ⟨[], 0, 0, 0, 0, 0, 0, false, false⟩
      ⟨[Except.error (NetErr.transport "boom")], [], 0, [], 0⟩).1
    (RunError.net (NetErr.transport "boom")) rfl

/-- Witness for the C2 theorem: one upload worker cancelled by its deadline
after generating 500 bytes yields a successful phase counting those bytes. -/
theorem runUpload_cancellation_counts_witness :
    runUpload 2048 [UlWorkerInput.doErr [⟨500, none, none⟩] NetErr.deadlineExceeded]
        1000000000
      = Except.ok ⟨bytesToMbps 500 1000000000, 500, 1000000000⟩ :=
  (runUpload_cancellation_counts 2048 1000000000
      [UlWorkerInput.doErr [⟨500, none, none⟩] NetErr.deadlineExceeded]).2.1
    (by decide) (by decide)

/-- Witness for the C3 theorem: a download run whose single worker fails in
client.Do propagates that transport error. -/
theorem runDownload_error_priority_witness :
    runDownload [DlWorkerInput.doErr (NetErr.transport "reset")] 0
      = Except.error (RunError.net (NetErr.transport "reset")) :=
  (runDownload_error_priority [DlWorkerInput.doErr (NetErr.transport "reset")] 0).1
    (NetErr.transport "reset") rfl

/-- Witness for the C4 theorem: the median-style index on a three-element
sorted sequence. -/
theorem percentileDuration_spec_witness :
    percentileDuration [10, 20, 30] (1 / 2)
      = List.getD [10, 20, 30]
          (min (max (⌈(([10, 20, 30] : List Int).length : Rat) * (1 / 2)⌉ - 1) 0)
            ((([10, 20, 30] : List Int).length : Int) - 1)).toNat 0 :=
  (percentileDuration_spec [10, 20, 30] (1 / 2) (by decide) (by decide)).2.2
    (by norm_num) (by norm_num)

/-- Witness for the C5 theorem: a config with nonpositive duration gets the
default duration, and the normalized base URL never ends in a slash. -/
theorem normalizeClientConfig_spec_witness :
    (normalizeClientConfig ⟨"srv//".toList, 0, 0, 0, 0, 0, 0, false, false⟩).duration
        = DefaultDuration
  ∧ (normalizeClientConfig ⟨"srv//".toList, 0, 0, 0, 0, 0, 0, false, false⟩).baseURL.getLast?
        ≠ some '/' := by
  obtain ⟨h1, h2, h3, h4, h5, h6, h7, h8, h9, h10, h11, h12, h13, h14, h15, h16,
    h17, h18, h19, h20, h21⟩ :=
    normalizeClientConfig_spec ⟨"srv//".toList, 0, 0, 0, 0, 0, 0, false, false⟩
  exact ⟨h3 (by decide), h21⟩

/-- Witness for the C6 theorem: negative raw inputs are delivered fully
clamped. -/
theorem reportProgress_clamped_witness :
    0 ≤ (ProgressUpdate.mk "download" 0 0 0).percent
  ∧ (ProgressUpdate.mk "download" 0 0 0).percent ≤ 100
  ∧ 0 ≤ (ProgressUpdate.mk "download" 0 0 0).mbps
  ∧ 0 ≤ (ProgressUpdate.mk "download" 0 0 0).pingMs :=
  reportProgress_clamped true "download" (-5) (-2) (-3) ⟨"download", 0, 0, 0⟩
    (by norm_num [reportProgress])

/-- Witness for the C7 theorem: a nonpositive duration yields zero Mbps. -/
theorem bytesToMbps_spec_witness : bytesToMbps 7 (-3) = 0 :=
  (bytesToMbps_spec 7 (-3)).1 (by decide)

/-- Witness for the C8 theorem: two successful probes with a configured
sink emit exactly the two specified events. -/
theorem runPing_progress_events_witness :
    (runPing ⟨[], 0, 0, 0, 0, 2, 0, false, true⟩
        [Except.ok 5000000, Except.ok 12000000]).snd
      = pingEventsSpec 2 0 (okLeadingVals [Except.ok 5000000, Except.ok 12000000]) := by
  apply runPing_progress_events ⟨[], 0, 0, 0, 0, 2, 0, false, true⟩
      [Except.ok 5000000, Except.ok 12000000] rfl rfl
  intro d hd
  simp only [List.mem_cons, List.not_mem_nil, or_false, Except.ok.injEq] at hd
  rcases hd with h | h <;> omega

/-- Witness for the C9 theorem: three workers adding 7 each, in schedule
order 0,1,2, leave the counter at 21. -/
theorem sharedCounter_atomic_sum_witness :
    execSchedule 7 [0, 1, 2] = ((3 : Nat) : Int) * 7 :=
  sharedCounter_atomic_sum 3 7 [0, 1, 2] (by decide) (by decide) rfl

/-- Witness for the C10 theorem: a fully successful run has positive
download and upload byte totals. -/
theorem runClient_success_positive_bytes_witness :
    0 < (RunClient ⟨[], 0, 0, 0, 0, 0, 0, false, false⟩
        ⟨[Except.ok 5], [DlWorkerInput.body [⟨100, some NetErr.eof⟩]], 1000000000,
          [UlWorkerInput.done [⟨200, none, none⟩]], 1000000000⟩).fst.fst.download.bytes
  ∧ 0 < (RunClient ⟨[], 0, 0, 0, 0, 0, 0, false, false⟩
        ⟨[Except.ok 5], [DlWorkerInput.body [⟨100, some NetErr.eof⟩]], 1000000000,
          [UlWorkerInput.done [⟨200, none, none⟩]], 1000000000⟩).fst.fst.upload.bytes :=
  runClient_success_positive_bytes ⟨[], 0, 0, 0, 0, 0, 0, false, false⟩
    ⟨[Except.ok 5], [DlWorkerInput.body [⟨100, some NetErr.eof⟩]], 1000000000,
      [UlWorkerInput.done [⟨200, none, none⟩]], 1000000000⟩ rfl
